/-
Verification of the core data model and operations of the semantic-webapp
repository (quantum-inspired semantic network encoder).

The TypeScript sources are shallowly embedded here:
  * `Cplx`            — src/lib/quantum/complex.ts (class Complex)
  * `Graph`           — src/lib/network/graph.ts (class Graph); JS `Map`s are
                        modelled as insertion-ordered association lists
  * `QuantumField`    — src/lib/quantum/field.ts (class QuantumField)
  * `FieldLearner`    — src/lib/quantum/fieldLearner.ts (class FieldLearner)
  * `WaveFunction`, `QuantumEvolution`
                      — src/lib/quantum/wavefunction.ts, evolution.ts
  * `PatternDetector` — src/lib/analysis/patterns.ts (ranking pipeline)

JS floating-point numbers are modelled as real numbers (ℝ) where the code
performs transcendental arithmetic and as rationals (ℚ) where the code only
compares, clamps and copies them (graph edge weights).  `Math.random()`-based
identifiers (`WaveFunction.id`, `uuidv4()`) are the only nondeterminism in the
sources; they are never read by the verified operations, so `WaveFunction.id`
is omitted and `uuidv4()` results are passed as explicit parameters.
-/
import Mathlib

/-- Embedding of class Complex (complex.ts): a pair of real components. -/
@[ext]
structure Cplx where
  re : ℝ
  im : ℝ

/-- Complex.add from complex.ts. -/
def Cplx.add (z w : Cplx) : Cplx :=
  ⟨z.re + w.re, z.im + w.im⟩

/-- Complex.multiply from complex.ts. -/
def Cplx.multiply (z w : Cplx) : Cplx :=
  ⟨z.re * w.re - z.im * w.im, z.re * w.im + z.im * w.re⟩

/-- Complex.conjugate from complex.ts. -/
def Cplx.conjugate (z : Cplx) : Cplx :=
  ⟨z.re, -z.im⟩

/-- Complex.scale from complex.ts. -/
def Cplx.scale (z : Cplx) (factor : ℝ) : Cplx :=
  ⟨z.re * factor, z.im * factor⟩

/-- Complex.magnitude from complex.ts: Math.sqrt(re*re + im*im). -/
noncomputable def Cplx.magnitude (z : Cplx) : ℝ :=
  Real.sqrt (z.re * z.re + z.im * z.im)

/-- Complex.phase from complex.ts: Math.atan2(imag, real), which is the
argument of the corresponding Mathlib complex number. -/
noncomputable def Cplx.phaseOf (z : Cplx) : ℝ :=
  Complex.arg ⟨z.re, z.im⟩

/-- Complex.fromPolar from complex.ts. -/
noncomputable def Cplx.fromPolar (r theta : ℝ) : Cplx :=
  ⟨r * Real.cos theta, r * Real.sin theta⟩

/-- The zero complex value new Complex(0, 0). -/
def Cplx.zero : Cplx := ⟨0, 0⟩

/-
Association-list model of a JavaScript Map with string keys: `set` replaces
the value in place when the key is present and appends otherwise; iteration
order is insertion order, exactly as in JS.
-/

/-- JS Map.has. -/
def jsHas {β : Type} (l : List (String × β)) (k : String) : Bool :=
  l.any (fun p => p.1 == k)

/-- JS Map.get (None models undefined). -/
def jsGet {β : Type} (l : List (String × β)) (k : String) : Option β :=
  (l.find? (fun p => p.1 == k)).map Prod.snd

/-- JS Map.set: replace in place if present, else append. -/
def jsSet {β : Type} (l : List (String × β)) (k : String) (v : β) : List (String × β) :=
  if l.any (fun p => p.1 == k) then
    l.map (fun p => if p.1 == k then (k, v) else p)
  else
    l ++ [(k, v)]

/-- JS Map.delete. -/
def jsDelete {β : Type} (l : List (String × β)) (k : String) : List (String × β) :=
  l.filter (fun p => !(p.1 == k))

/-- Property bags (Record of string keys) from graph.ts; the graph operations
never interpret the values, so they are modelled as opaque strings. -/
def Props : Type := List (String × String)

instance : DecidableEq Props := by
  unfold Props
  infer_instance

/-- GraphNode from graph.ts. -/
structure GraphNode where
  id : String
  label : String
  nodeType : String
  properties : Props
  position : Option (ℚ × ℚ)
deriving DecidableEq

/-- GraphEdge from graph.ts.  Weights are JS numbers, modelled as ℚ. -/
structure GraphEdge where
  id : String
  source : String
  target : String
  edgeType : String
  weight : ℚ
  properties : Props
deriving DecidableEq

/-- GraphData from graph.ts (the toJSON / fromJSON shape). -/
structure GraphData where
  nodes : List GraphNode
  edges : List GraphEdge
deriving DecidableEq

/-- Class Graph from graph.ts: two JS Maps keyed by id. -/
structure Graph where
  nodes : List (String × GraphNode)
  edges : List (String × GraphEdge)
deriving DecidableEq

/-- The freshly constructed graph. -/
def Graph.empty : Graph := ⟨[], []⟩

/-- Graph.addNode; `freshId` stands for the uuidv4() call. -/
def Graph.addNode (g : Graph) (freshId label nodeType : String) (properties : Props) :
    GraphNode × Graph :=
  let node : GraphNode := ⟨freshId, label, nodeType, properties, none⟩
  (node, { g with nodes := jsSet g.nodes node.id node })

/-- Graph.addEdge; throws when either endpoint id is absent; `freshId` stands
for the uuidv4() call. -/
def Graph.addEdge (g : Graph) (freshId source target edgeType : String) (weight : ℚ)
    (properties : Props) : Except String (GraphEdge × Graph) :=
  if ¬ (jsHas g.nodes source) ∨ ¬ (jsHas g.nodes target) then
    .error "Source or target node does not exist"
  else
    let edge : GraphEdge := ⟨freshId, source, target, edgeType, weight, properties⟩
    .ok (edge, { g with edges := jsSet g.edges edge.id edge })

/-- Graph.removeNode: delete all edges touching the node, then the node. -/
def Graph.removeNode (g : Graph) (id : String) : Graph :=
  { nodes := jsDelete g.nodes id
    edges := g.edges.filter (fun p => !(p.2.source == id || p.2.target == id)) }

/-- Graph.removeEdge. -/
def Graph.removeEdge (g : Graph) (id : String) : Graph :=
  { g with edges := jsDelete g.edges id }

/-- Graph.updateNodePosition. -/
def Graph.updateNodePosition (g : Graph) (id : String) (x y : ℚ) : Graph :=
  match jsGet g.nodes id with
  | none => g
  | some node => { g with nodes := jsSet g.nodes id { node with position := some (x, y) } }

/-- Graph.updateEdgeWeight: Math.max(0, Math.min(1, weight)). -/
def Graph.updateEdgeWeight (g : Graph) (id : String) (weight : ℚ) : Graph :=
  match jsGet g.edges id with
  | none => g
  | some edge => { g with edges := jsSet g.edges id { edge with weight := max 0 (min 1 weight) } }

/-- Graph.clear. -/
def Graph.clear (_g : Graph) : Graph := ⟨[], []⟩

/-- Graph.toJSON: the values of both maps in insertion order. -/
def Graph.toJSON (g : Graph) : GraphData :=
  ⟨g.nodes.map Prod.snd, g.edges.map Prod.snd⟩

/-- Graph.fromJSON: clear, then re-insert every node and edge keyed by its id. -/
def Graph.fromJSON (_g : Graph) (data : GraphData) : Graph :=
  { nodes := data.nodes.foldl (fun acc n => jsSet acc n.id n) []
    edges := data.edges.foldl (fun acc e => jsSet acc e.id e) [] }

/-- Well-formedness maintained by every Graph operation: map keys are exactly
the stored ids and are duplicate-free. -/
def Graph.WF (g : Graph) : Prop :=
  (∀ p ∈ g.nodes, p.1 = p.2.id) ∧ (g.nodes.map Prod.fst).Nodup ∧
  (∀ p ∈ g.edges, p.1 = p.2.id) ∧ (g.edges.map Prod.fst).Nodup

/-- Every stored edge weight lies in [0,1]. -/
def Graph.EdgeWeightsInRange (g : Graph) : Prop :=
  ∀ p ∈ g.edges, 0 ≤ p.2.weight ∧ p.2.weight ≤ 1

/-
Embedding of class QuantumField (field.ts).  The members intelligence,
entropy, energy, information, complexity, learningRate, development and
systemState are never read or written by the operations verified here and are
omitted.  JS numbers are modelled as ℝ; Math.atan2/cos/sin/log/sqrt as the
Mathlib real functions.
-/

/-- The 32-bit wrap-around applied by the JS bitwise operators in the token
hash (`hash = hash & hash` coerces to a signed 32-bit integer). -/
def toInt32 (x : ℤ) : ℤ := (x + 2 ^ 31) % 2 ^ 32 - 2 ^ 31

/-- One step of the rolling token hash: ((h << 5) - h) + charCode, coerced to
int32 by the `& hash`. -/
def hashStep (h : ℤ) (c : ℕ) : ℤ := toInt32 (toInt32 (h * 32) - h + c)

/-- The rolling hash over the characters of the token (QuantumField.initialize
and WaveFunctionUtils.createWaveFunction use the same scheme). -/
def strHash (token : String) : ℤ := token.data.foldl (fun h c => hashStep h c.toNat) 0

/-- Inner while-loop of getPrimeFactors: divide out the factor d as long as it
divides num.  The side conditions 2 ≤ d and 0 < num hold at every call site of
the loop and make it terminate. -/
def divideOut (d : ℕ) (num : ℕ) : List ℕ × ℕ :=
  if h : num % d = 0 ∧ 2 ≤ d ∧ 0 < num then
    let rest := divideOut d (num / d)
    (d :: rest.1, rest.2)
  else
    ([], num)
  decreasing_by
    exact Nat.div_lt_self h.2.2 h.2.1

/-- The remainder returned by divideOut never exceeds its input. -/
theorem divideOut_snd_le (d num : ℕ) : (divideOut d num).2 ≤ num := by
  induction num using Nat.strong_induction_on with
  | _ num ih =>
    rw [divideOut]
    split
    · next h =>
      exact le_trans (ih (num / d) (Nat.div_lt_self h.2.2 h.2.1)) (Nat.div_le_self num d)
    · exact le_rfl

/-- Outer while-loop of getPrimeFactors: after dividing out d, increment d and
stop as soon as d*d exceeds the remainder, pushing the remainder if it is
still above 1. -/
def factorLoop (d num : ℕ) : List ℕ :=
  if 1 < num then
    if (d + 1) * (d + 1) > (divideOut d num).2 then
      (divideOut d num).1 ++ (if 1 < (divideOut d num).2 then [(divideOut d num).2] else [])
    else
      (divideOut d num).1 ++ factorLoop (d + 1) (divideOut d num).2
  else []
  termination_by num - d
  decreasing_by
    have hle : (divideOut d num).2 ≤ num := divideOut_snd_le d num
    have hsq : (d + 1) * (d + 1) ≤ (divideOut d num).2 := by omega
    have hd1 : d + 1 ≤ (divideOut d num).2 :=
      le_trans (Nat.le_mul_of_pos_left (d + 1) (Nat.succ_pos d)) hsq
    omega

/-- QuantumField.getPrimeFactors: trial division; returns [1] for n ≤ 1. -/
def getPrimeFactors (n : ℕ) : List ℕ :=
  if n ≤ 1 then [1] else factorLoop 2 n

/-- QuantumField.spectralFormFactor. -/
noncomputable def spectralFormFactor (p q : ℕ) (tau : ℝ) : Cplx :=
  let phase := (Real.log p - Real.log q) * tau
  ⟨Real.cos phase / (p * q), Real.sin phase / (p * q)⟩

/-- QuantumField.berryPhase. -/
noncomputable def berryPhase (primes : List ℕ) (x : ℝ) : ℝ :=
  primes.foldl (fun phase p => phase + Real.log p * x) 0

/-- State of a QuantumField object (the members relevant to the verified
operations). -/
structure QuantumField where
  dimensions : ℕ
  values : List Cplx
  phase : List ℝ
  coherence : ℝ
  primeFactors : List ℕ
  spectralForm : List Cplx

/-- The QuantumField constructor. -/
def mkQuantumField (d : ℕ) : QuantumField :=
  ⟨d, List.replicate d Cplx.zero, List.replicate d 0, 0, [], List.replicate d Cplx.zero⟩

/-- QuantumField.initialize, embedded under the name initField.  The loop
overwrites values[k], phase[k] and
spectralForm[k] for every k below values.length; writing index k of a list is
rendered as a fresh prefix of that length followed by the untouched tail.  The
line `this.coherence = Math.sqrt(this.coherence / this.dimensions)` sits
inside the for-loop in the source, so it is applied after every accumulation
step, which the fold reproduces. -/
noncomputable def QuantumField.initField (f : QuantumField) (token : String) : QuantumField :=
  let hash := strHash token
  let pf := getPrimeFactors (hash.natAbs + 1)
  let normalization := Real.sqrt (pf.foldl (fun sum p => sum + 1 / (p : ℝ)) 0)
  let n := f.values.length
  let spectralSumAt : ℕ → Cplx := fun k =>
    let tau : ℝ := 2 * Real.pi * ((k : ℝ) / (n : ℝ))
    ((List.range pf.length).flatMap (fun i =>
      ((List.range pf.length).drop i).map (fun j =>
        spectralFormFactor (pf.getD i 1) (pf.getD j 1) tau))).foldl Cplx.add Cplx.zero
  let phaseAt : ℕ → ℝ := fun k =>
    berryPhase pf ((k : ℝ) / (n : ℝ)) + (spectralSumAt k).phaseOf
  let magAt : ℕ → ℝ := fun k => (spectralSumAt k).magnitude / normalization
  { f with
    primeFactors := pf
    values := (List.range n).map (fun k => Cplx.fromPolar (magAt k) (phaseAt k))
    phase := (List.range n).map phaseAt ++ f.phase.drop n
    spectralForm := (List.range n).map spectralSumAt ++ f.spectralForm.drop n
    coherence :=
      (List.range n).foldl
        (fun c k => Real.sqrt ((c + magAt k * magAt k) / (f.dimensions : ℝ))) 0 }

/-- QuantumField.normalize: divide by the root of the summed squared
magnitudes unless that norm is zero. -/
noncomputable def QuantumField.normalize (f : QuantumField) : QuantumField :=
  let norm := Real.sqrt (f.values.foldl (fun sum v => sum + (v.multiply v.conjugate).re) 0)
  if 0 < norm then
    { f with values := f.values.map (fun v => v.scale (1 / norm)) }
  else f

/-- QuantumField.add: elementwise sum on a fresh field of this.values.length
dimensions; [...new Set(...)] on the prime factors is order-preserving
deduplication of the concatenation.  Out-of-range access to other.values is
rendered with a zero default (never exercised by equal-dimension callers). -/
noncomputable def QuantumField.add (f other : QuantumField) : QuantumField :=
  let base := mkQuantumField f.values.length
  { base with
    values := (List.range f.values.length).map
      (fun i => (f.values.getD i Cplx.zero).add (other.values.getD i Cplx.zero))
    primeFactors := (f.primeFactors ++ other.primeFactors).dedup
    spectralForm := (List.range f.spectralForm.length).map
      (fun i => (f.spectralForm.getD i Cplx.zero).add (other.spectralForm.getD i Cplx.zero)) }

/-
Embedding of class FieldLearner (fieldLearner.ts).  The private getFieldKey
method canonically serializes a field (its values, spectral pattern and the
optional learning context) with JSON.stringify; serialization of real numbers
is not a computable operation on ℝ, so the key function is passed as an
explicit parameter `keyOf` wherever the source calls getFieldKey.  Equal
(field, context) arguments always produce equal keys, which is the only
property of getFieldKey the verified claims rely on.
-/

/-- LearningContext from fieldLearner.ts. -/
structure LearningContext where
  position : Option ℕ
  precedingWords : Option (List String)
  followingWords : Option (List String)
  sentencePosition : Option ℕ

/-- State of a FieldLearner object. -/
structure FieldLearner where
  fieldDimensions : ℕ
  learningRate : ℝ
  momentum : ℝ
  decayFactor : ℝ
  fieldMemory : List (String × QuantumField)
  resonanceHistory : List (String × List ℝ)

/-- The FieldLearner constructor (defaults: 512, 0.01, 0.9, 0.99). -/
def mkFieldLearner (fieldDimensions : ℕ) (learningRate momentum decayFactor : ℝ) :
    FieldLearner :=
  ⟨fieldDimensions, learningRate, momentum, decayFactor, [], []⟩

/-- The indexed loop of the decay pass of updateResonanceHistory: starting at
index i, entry at index j is multiplied by decay^(len-j-1). -/
def decayFrom (decay : ℝ) (len : ℕ) : ℕ → List ℝ → List ℝ
  | _, [] => []
  | i, x :: xs => x * decay ^ (len - i - 1) :: decayFrom decay len (i + 1) xs

/-- The decay pass of updateResonanceHistory: history[i] *= decay^(len-i-1)
for every index i of the current history array. -/
def decayAll (decay : ℝ) (h : List ℝ) : List ℝ :=
  decayFrom decay h.length 0 h

/-- FieldLearner.updateResonanceHistory: append the resonance, drop the oldest
entry when the history exceeds 100, then decay every entry. -/
def FieldLearner.updateResonanceHistory (st : FieldLearner) (key : String) (resonance : ℝ) :
    FieldLearner :=
  let history := (jsGet st.resonanceHistory key).getD []
  let pushed := history ++ [resonance]
  let capped := if 100 < pushed.length then pushed.drop 1 else pushed
  { st with resonanceHistory := jsSet st.resonanceHistory key (decayAll st.decayFactor capped) }

/-- FieldLearner.computeFieldAdjustment: a fresh field of the learner's
dimension count whose i-th value is fromPolar(resonance*learningRate,
(targetPhase - sourcePhase)*momentum), then normalized. -/
noncomputable def FieldLearner.computeFieldAdjustment (st : FieldLearner)
    (sourceField targetField : QuantumField) (resonance : ℝ) : QuantumField :=
  let base := mkQuantumField st.fieldDimensions
  let adjusted :=
    { base with
      values := (List.range st.fieldDimensions).map (fun i =>
        let sourcePhase := (sourceField.values.getD i Cplx.zero).phaseOf
        let targetPhase := (targetField.values.getD i Cplx.zero).phaseOf
        Cplx.fromPolar (resonance * st.learningRate)
          ((targetPhase - sourcePhase) * st.momentum)) }
  adjusted.normalize

/-- FieldLearner.learnFromInteraction: update the source resonance history,
then store the adjusted source and the raw target in field memory. -/
noncomputable def FieldLearner.learnFromInteraction
    (keyOf : QuantumField → Option LearningContext → String) (st : FieldLearner)
    (sourceField targetField : QuantumField) (resonance : ℝ)
    (context : Option LearningContext) : FieldLearner :=
  let sourceKey := keyOf sourceField context
  let targetKey := keyOf targetField context
  let st1 := st.updateResonanceHistory sourceKey resonance
  let adjustment := st1.computeFieldAdjustment sourceField targetField resonance
  let adjustedSource := (sourceField.add adjustment).normalize
  let st2 := { st1 with fieldMemory := jsSet st1.fieldMemory sourceKey adjustedSource }
  { st2 with fieldMemory := jsSet st2.fieldMemory targetKey targetField }

/-- FieldLearner.getResonancePattern: the stored history, or [] if none. -/
def FieldLearner.getResonancePattern (keyOf : QuantumField → Option LearningContext → String)
    (st : FieldLearner) (field : QuantumField) (context : Option LearningContext) : List ℝ :=
  (jsGet st.resonanceHistory (keyOf field context)).getD []

/-
Embedding of class WaveFunction and class QuantumEvolution
(wavefunction.ts / evolution.ts).  WaveFunction.id is a Math.random() tag that
no evolution operation ever reads; it is omitted.  evolveStates,
applyInteractions and applyEntanglement are not needed by the verified claims
(evolveState never calls them) and are not embedded.
-/

/-- State of a WaveFunction object: dimension values, clamped amplitude,
normalized phase and connection list. -/
structure WaveFunction where
  dimensions : List Cplx
  amplitude : ℝ
  phase : ℝ
  connections : List String

/-- The WaveFunction constructor: all-zero dimensions. -/
def mkWaveFunction (dimension : ℕ) : WaveFunction :=
  ⟨List.replicate dimension Cplx.zero, 0, 0, []⟩

/-- WaveFunction.setDimension: write inside bounds, no-op otherwise (List.set
has exactly the guarded-index semantics of the source). -/
def WaveFunction.setDimension (w : WaveFunction) (index : ℕ) (value : Cplx) : WaveFunction :=
  { w with dimensions := w.dimensions.set index value }

/-- WaveFunction.normalize: no-op when the norm is zero. -/
noncomputable def WaveFunction.normalize (w : WaveFunction) : WaveFunction :=
  let norm := Real.sqrt (w.dimensions.foldl (fun acc dim => acc + (dim.multiply dim.conjugate).re) 0)
  if norm = 0 then w
  else { w with dimensions := w.dimensions.map (fun dim => dim.scale (1 / norm)) }

/-- EncodingOptions from encoder.ts. -/
structure EncodingOptions where
  dimensionality : ℕ
  phaseResolution : ℕ
  amplitudeScale : ℝ
  coherenceThreshold : ℝ

/-- The metadata record of an EncodedState (encoder.ts). -/
structure StateMetadata where
  encodingType : String
  timestamp : ℤ
  parameters : EncodingOptions

/-- EncodedState from encoder.ts. -/
structure EncodedState where
  waveFunction : WaveFunction
  sourceNode : GraphNode
  connections : List String
  metadata : StateMetadata

/-- EvolutionOperator from evolution.ts; `apply` mutates the wavefunction in
the source and returns the new wavefunction here. -/
structure EvolutionOperator where
  name : String
  apply : WaveFunction → ℝ → WaveFunction
  parameters : List (String × ℝ)

/-- EvolutionOptions from evolution.ts (constructor defaults: 0.01, 1.0, [],
true, true). -/
structure EvolutionOptions where
  timeStep : ℝ
  totalTime : ℝ
  operators : List EvolutionOperator
  preserveConnections : Bool
  trackMetrics : Bool

/-- The per-step metrics record of a TimeStep. -/
structure EvolutionMetrics where
  totalEnergy : ℝ
  averageCoherence : ℝ
  entanglementEntropy : ℝ

/-- TimeStep from evolution.ts. -/
structure TimeStep where
  time : ℝ
  states : List EncodedState
  metrics : EvolutionMetrics

/-- QuantumEvolution.createHarmonicOperator. -/
noncomputable def createHarmonicOperator (frequency amplitude : ℝ) : EvolutionOperator :=
  { name := "harmonic"
    parameters := [("frequency", frequency), ("amplitude", amplitude)]
    apply := fun state time =>
      { state with dimensions :=
          (state.dimensions.map (fun dim => dim.scale (1 + Real.cos (frequency * time) * amplitude))) } }

/-- QuantumEvolution.createDissipationOperator: scale every dimension by
exp(-rate * time). -/
noncomputable def createDissipationOperator (rate : ℝ) : EvolutionOperator :=
  { name := "dissipation"
    parameters := [("rate", rate)]
    apply := fun state time =>
      { state with dimensions :=
          (state.dimensions.map (fun dim => dim.scale (Real.exp (-rate * time)))) } }

/-- QuantumEvolution.createPhaseEvolutionOperator: rotate every dimension by
frequency * time, preserving magnitude. -/
noncomputable def createPhaseEvolutionOperator (frequency : ℝ) : EvolutionOperator :=
  { name := "phase-evolution"
    parameters := [("frequency", frequency)]
    apply := fun state time =>
      { state with dimensions :=
          (state.dimensions.map (fun dim =>
            Cplx.fromPolar (Real.sqrt (dim.re * dim.re + dim.im * dim.im))
              (dim.phaseOf + frequency * time))) } }

/-- QuantumEvolution.calculateCoherence: |mean cosine of per-dimension phase
differences| (out-of-range access to the second wave is rendered with a zero
default; callers pass equal-length waves). -/
noncomputable def calculateCoherence (wave1 wave2 : WaveFunction) : ℝ :=
  let dims1 := wave1.dimensions
  let dims2 := wave2.dimensions
  let total := (List.range dims1.length).foldl
    (fun acc i =>
      acc + Real.cos ((dims1.getD i Cplx.zero).phaseOf - (dims2.getD i Cplx.zero).phaseOf)) 0
  |total / (dims1.length : ℝ)|

/-- QuantumEvolution.calculateEntanglementEntropy: Shannon-style entropy over
per-dimension probability mass, skipping zero-probability dimensions. -/
noncomputable def calculateEntanglementEntropy (wave : WaveFunction) : ℝ :=
  wave.dimensions.foldl
    (fun entropy dim =>
      let probability := dim.re * dim.re + dim.im * dim.im
      if 0 < probability then entropy - probability * Real.log probability else entropy) 0

/-- QuantumEvolution.calculateMetrics.  The source divides the accumulated
entropy by states.length without guarding against an empty list (NaN in JS);
the claims below only exercise nonempty state lists. -/
noncomputable def calculateMetrics (states : List EncodedState) : EvolutionMetrics :=
  let totalEnergy := states.foldl
    (fun acc state =>
      state.waveFunction.dimensions.foldl
        (fun a dim => a + (dim.re * dim.re + dim.im * dim.im)) acc) (0 : ℝ)
  let totalCoherence := states.foldl
    (fun acc state =>
      state.connections.foldl
        (fun a connectionId =>
          match states.find? (fun s => s.sourceNode.id == connectionId) with
          | some connectedState => a + calculateCoherence state.waveFunction connectedState.waveFunction
          | none => a) acc) (0 : ℝ)
  let connectionCount := states.foldl (fun sum state => sum + state.connections.length) (0 : ℕ)
  let entropyTotal := states.foldl
    (fun acc state => acc + calculateEntanglementEntropy state.waveFunction) 0
  { totalEnergy := totalEnergy
    averageCoherence := if 0 < connectionCount then totalCoherence / (connectionCount : ℝ) else 0
    entanglementEntropy := entropyTotal / (states.length : ℝ) }

/-- QuantumEvolution.cloneState: a FRESH all-zero WaveFunction of the same
dimension count (the source never copies the dimension values), with the
source node, connection list and metadata carried over. -/
def cloneState (state : EncodedState) : EncodedState :=
  { waveFunction := mkWaveFunction state.waveFunction.dimensions.length
    sourceNode := state.sourceNode
    connections := state.connections
    metadata := state.metadata }

/-- QuantumEvolution.recordTimeStep: metrics are always computed; the recorded
states are deep-cloned when trackMetrics is set. -/
noncomputable def recordTimeStep (opts : EvolutionOptions) (states : List EncodedState)
    (time : ℝ) : TimeStep :=
  if opts.trackMetrics = false then
    ⟨time, states, calculateMetrics states⟩
  else
    ⟨time, states.map cloneState, calculateMetrics states⟩

/-- Apply all configured operators in order at the given time. -/
def applyOperators (ops : List EvolutionOperator) (w : WaveFunction) (t : ℝ) : WaveFunction :=
  ops.foldl (fun acc op => op.apply acc t) w

/-- Body of the evolveState while-loop, unrolled a fixed number of times:
apply operators, normalize, record, advance time. -/
noncomputable def evolveLoop (opts : EvolutionOptions) :
    ℕ → ℝ → EncodedState → List TimeStep
  | 0, _, _ => []
  | Nat.succ n, t, s =>
      let w := applyOperators opts.operators s.waveFunction t
      let s1 := { s with waveFunction := w.normalize }
      recordTimeStep opts [s1] t :: evolveLoop opts n (t + opts.timeStep) s1

/-- Number of iterations of `while (currentTime <= totalTime)` with
currentTime = n * timeStep: ⌊totalTime / timeStep⌋ + 1 when timeStep > 0 (and
0 when that quantity is negative).  For timeStep ≤ 0 the JS loop never
terminates; no claim exercises that configuration. -/
noncomputable def evolveIterations (opts : EvolutionOptions) : ℕ :=
  if 0 < opts.timeStep then (⌊opts.totalTime / opts.timeStep⌋ + 1).toNat else 0

/-- QuantumEvolution.evolveState: clone the initial state (resetting its
wavefunction to zero), then run the time loop from t = 0. -/
noncomputable def evolveState (opts : EvolutionOptions) (initialState : EncodedState) :
    List TimeStep :=
  evolveLoop opts (evolveIterations opts) 0 (cloneState initialState)

/-
Embedding of PatternDetector.detectPatterns (patterns.ts).  The four category
detectors (clusters, sequences, similarities, anomalies) are taken as
function parameters: the verified claim concerns only the final concatenation,
score-descending sort and truncation performed by detectPatterns itself, for
arbitrary results of the four detectors.  Array.prototype.sort with the
comparator (a, b) => b.score - a.score produces a list sorted descending by
score; it is rendered with insertionSort over that relation.
-/

/-- The four pattern categories of patterns.ts. -/
inductive PatternType where
  | cluster
  | sequence
  | similarity
  | anomaly
deriving DecidableEq

/-- Pattern metadata from patterns.ts. -/
structure PatternMetadata where
  timestamp : ℤ
  algorithm : String
  parameters : List (String × ℝ)

/-- Pattern from patterns.ts (the optional numeric properties are an opaque
name-value list; the ranking never reads them). -/
structure Pattern where
  patternType : PatternType
  states : List String
  score : ℝ
  properties : List (String × ℝ)
  metadata : PatternMetadata

/-- PatternDetectionOptions from patterns.ts (defaults: 3, 0.7, 0.4, 0.3, 0.3,
10). -/
structure PatternDetectionOptions where
  minClusterSize : ℕ
  similarityThreshold : ℝ
  coherenceWeight : ℝ
  amplitudeWeight : ℝ
  phaseWeight : ℝ
  maxPatterns : ℕ

/-- Descending-score order used by the detectPatterns comparator. -/
def scoreGE (a b : Pattern) : Prop := b.score ≤ a.score

noncomputable instance : DecidableRel scoreGE := fun a b => Real.decidableLE b.score a.score

instance : IsTotal Pattern scoreGE := ⟨fun a b => le_total b.score a.score⟩

instance : IsTrans Pattern scoreGE := ⟨fun _ _ _ h1 h2 => le_trans h2 h1⟩

/-- PatternDetector.detectPatterns: concatenate the four detector outputs,
sort by score descending, truncate to maxPatterns. -/
noncomputable def detectPatterns (opts : PatternDetectionOptions)
    (detectClusters detectSequences detectSimilarities detectAnomalies :
      List EncodedState → List Pattern)
    (states : List EncodedState) : List Pattern :=
  let patterns := detectClusters states ++ detectSequences states ++
    detectSimilarities states ++ detectAnomalies states
  (patterns.insertionSort scoreGE).take opts.maxPatterns

/-
Supporting lemmas about the JS Map model.
-/

/-- Membership after jsSet: the new pair or an old pair. -/
theorem mem_jsSet {β : Type} {l : List (String × β)} {k : String} {v : β} {p : String × β}
    (hp : p ∈ jsSet l k v) : p = (k, v) ∨ p ∈ l := by
  unfold jsSet at hp
  split at hp
  · rcases List.mem_map.mp hp with ⟨q, hq, hqe⟩
    by_cases hk : q.1 == k
    · left
      simp [hk] at hqe
      exact hqe.symm
    · right
      simp [hk] at hqe
      exact hqe ▸ hq
  · rcases List.mem_append.mp hp with h | h
    · exact Or.inr h
    · left
      simpa using h

/-- jsSet on an absent key appends the new pair. -/
theorem jsSet_absent {β : Type} {l : List (String × β)} {k : String} (v : β)
    (h : l.any (fun p => p.1 == k) = false) : jsSet l k v = l ++ [(k, v)] := by
  unfold jsSet
  simp [h]

/-- Re-inserting the values of a well-keyed duplicate-free association list
rebuilds exactly that list. -/
theorem foldl_jsSet_rebuild {β : Type} (idOf : β → String) :
    ∀ (l acc : List (String × β)), (∀ p ∈ l, p.1 = idOf p.2) →
      (((acc ++ l).map Prod.fst).Nodup) →
      (l.map Prod.snd).foldl (fun a v => jsSet a (idOf v) v) acc = acc ++ l := by
  intro l
  induction l with
  | nil =>
    intro acc _ _
    simp
  | cons hd tl ih =>
    intro acc hid hnd
    have hkey : hd.1 = idOf hd.2 := hid hd (List.mem_cons_self hd tl)
    have habsent : acc.any (fun p => p.1 == idOf hd.2) = false := by
      by_contra hc
      rcases List.any_eq_true.mp (eq_true_of_ne_false hc) with ⟨q, hq, hqe⟩
      have hqk : q.1 = idOf hd.2 := by simpa using hqe
      have hnd2 : ((acc.map Prod.fst) ++ ((hd :: tl).map Prod.fst)).Nodup := by
        simpa [List.map_append] using hnd
      have hdisj := List.disjoint_of_nodup_append hnd2
      exact hdisj (List.mem_map_of_mem Prod.fst hq)
        (by simpa [hqk, hkey] using List.mem_map_of_mem Prod.fst (List.mem_cons_self hd tl))
    have hstep : jsSet acc (idOf hd.2) hd.2 = acc ++ [(idOf hd.2, hd.2)] :=
      jsSet_absent hd.2 habsent
    have hpair : (idOf hd.2, hd.2) = hd := by
      cases hd
      simp_all
    calc ((hd :: tl).map Prod.snd).foldl (fun a v => jsSet a (idOf v) v) acc
        = (tl.map Prod.snd).foldl (fun a v => jsSet a (idOf v) v) (jsSet acc (idOf hd.2) hd.2) := by
          simp
      _ = (tl.map Prod.snd).foldl (fun a v => jsSet a (idOf v) v) (acc ++ [hd]) := by
          rw [hstep, hpair]
      _ = (acc ++ [hd]) ++ tl := by
          refine ih (acc ++ [hd]) (fun p hp => hid p (List.mem_cons_of_mem hd hp)) ?_
          simpa using hnd
      _ = acc ++ hd :: tl := by simp

/-
Concrete graphs used to instantiate the graph claims.
-/

/-- A demo node with id "a". -/
def nodeA : GraphNode := ⟨"a", "A", "concept", [], none⟩

/-- A demo node with id "b". -/
def nodeB : GraphNode := ⟨"b", "B", "concept", [], none⟩

/-- A demo node with id "c". -/
def nodeC : GraphNode := ⟨"c", "C", "concept", [], none⟩

/-- A demo edge from a to b with weight 1/2. -/
def edgeAB : GraphEdge := ⟨"e1", "a", "b", "rel", 1 / 2, []⟩

/-- A demo edge from b to c with weight 1. -/
def edgeBC : GraphEdge := ⟨"e2", "b", "c", "rel", 1, []⟩

/-- A demo graph with three nodes and two edges. -/
def gDemo : Graph := ⟨[("a", nodeA), ("b", nodeB), ("c", nodeC)], [("e1", edgeAB), ("e2", edgeBC)]⟩

/-- C7: Graph.addEdge returns the missing-endpoint error whenever either the
source or the target node id is absent, and after removeNode(id) no stored
edge has source or target equal to id. -/
theorem addEdge_missing_endpoint_error_and_removeNode_cascade :
    (∀ (g : Graph) (freshId source target edgeType : String) (weight : ℚ) (props : Props),
      (jsHas g.nodes source = false ∨ jsHas g.nodes target = false) →
      g.addEdge freshId source target edgeType weight props =
        .error "Source or target node does not exist") ∧
    (∀ (g : Graph) (id : String), ∀ p ∈ (g.removeNode id).edges,
      p.2.source ≠ id ∧ p.2.target ≠ id) := by
  constructor
  · intro g freshId source target edgeType weight props h
    rcases h with h | h <;> simp [Graph.addEdge, h]
  · intro g id p hp
    have := List.mem_filter.mp hp
    constructor
    · intro hcontra
      simp [hcontra] at this
    · intro hcontra
      simp [hcontra] at this

/-- Witness for the C7 theorem at a concrete graph: an addEdge call with a
missing target errors, and the edge surviving removeNode("a") does not touch
"a". -/
theorem addEdge_missing_endpoint_error_and_removeNode_cascade_witness :
    (jsHas gDemo.nodes "zzz" = false ∨ jsHas gDemo.nodes "b" = false) ∧
    gDemo.addEdge "e9" "zzz" "b" "rel" 1 [] = .error "Source or target node does not exist" ∧
    ("e2", edgeBC) ∈ (gDemo.removeNode "a").edges ∧
    edgeBC.source ≠ "a" ∧ edgeBC.target ≠ "a" := by
  refine ⟨by decide, ?_, by decide, ?_⟩
  · exact addEdge_missing_endpoint_error_and_removeNode_cascade.1
      gDemo "e9" "zzz" "b" "rel" 1 [] (by decide)
  · exact addEdge_missing_endpoint_error_and_removeNode_cascade.2
      gDemo "a" ("e2", edgeBC) (by decide)

/-- C4 counterexample: addEdge accepts weight 2 and stores it unclamped, so
the stored edge weight 2 escapes [0,1]. -/
theorem addEdge_stores_out_of_range_weight :
    (gDemo.addEdge "e3" "a" "b" "rel" 2 []).toOption.map
      (fun r => jsGet r.2.edges "e3") = some (some ⟨"e3", "a", "b", "rel", 2, []⟩) ∧
    (1 : ℚ) < 2 := by
  constructor
  · decide
  · norm_num

/-- C4 as amended: updateEdgeWeight clamps into [0,1] for every input, and the
weight-range invariant is preserved by addNode, by addEdge whenever the given
weight lies in [0,1], and by removeNode, removeEdge, updateNodePosition and
clear; addEdge itself performs no validation, so the invariant is conditional
on its argument. -/
theorem edge_weight_invariant_preservation :
    (∀ (g : Graph) (freshId label nodeType : String) (props : Props),
      g.EdgeWeightsInRange → ((g.addNode freshId label nodeType props).2).EdgeWeightsInRange) ∧
    (∀ (g : Graph) (freshId source target edgeType : String) (w : ℚ) (props : Props)
      (e : GraphEdge) (g2 : Graph), 0 ≤ w → w ≤ 1 → g.EdgeWeightsInRange →
      g.addEdge freshId source target edgeType w props = .ok (e, g2) →
      g2.EdgeWeightsInRange) ∧
    (∀ (g : Graph) (id : String), g.EdgeWeightsInRange → (g.removeNode id).EdgeWeightsInRange) ∧
    (∀ (g : Graph) (id : String), g.EdgeWeightsInRange → (g.removeEdge id).EdgeWeightsInRange) ∧
    (∀ (g : Graph) (id : String) (x y : ℚ),
      g.EdgeWeightsInRange → (g.updateNodePosition id x y).EdgeWeightsInRange) ∧
    (∀ (g : Graph) (id : String) (w : ℚ),
      g.EdgeWeightsInRange → (g.updateEdgeWeight id w).EdgeWeightsInRange) ∧
    (∀ g : Graph, (g.clear).EdgeWeightsInRange) := by
  refine ⟨?_, ?_, ?_, ?_, ?_, ?_, ?_⟩
  · intro g freshId label nodeType props hinv p hp
    exact hinv p hp
  · intro g freshId source target edgeType w props e g2 hw0 hw1 hinv hok p hp
    unfold Graph.addEdge at hok
    split at hok
    · exact absurd hok (by simp)
    · have hg2 : g2 = { g with edges := jsSet g.edges freshId ⟨freshId, source, target, edgeType, w, props⟩ } := by
        cases hok
        rfl
      rw [hg2] at hp
      rcases mem_jsSet hp with h | h
      · subst h
        exact ⟨hw0, hw1⟩
      · exact hinv p h
  · intro g id hinv p hp
    exact hinv p (List.mem_of_mem_filter hp)
  · intro g id hinv p hp
    exact hinv p (List.mem_of_mem_filter hp)
  · intro g id x y hinv p hp
    unfold Graph.updateNodePosition at hp
    rcases hget : jsGet g.nodes id with _ | node
    · rw [hget] at hp
      exact hinv p hp
    · rw [hget] at hp
      exact hinv p hp
  · intro g id w hinv p hp
    unfold Graph.updateEdgeWeight at hp
    rcases hget : jsGet g.edges id with _ | edge
    · rw [hget] at hp
      exact hinv p hp
    · rw [hget] at hp
      rcases mem_jsSet hp with h | h
      · subst h
        constructor
        · exact le_max_left 0 _
        · simp only [max_le_iff]
          exact ⟨by norm_num, min_le_left 1 w⟩
      · exact hinv p h
  · intro g p hp
    simp [Graph.clear] at hp

/-- Witness for the amended C4 theorem: updateEdgeWeight with an out-of-range
input and an in-range addEdge both keep every stored weight in [0,1] on a
concrete graph. -/
theorem edge_weight_invariant_preservation_witness :
    gDemo.EdgeWeightsInRange ∧
    Graph.EdgeWeightsInRange (gDemo.updateEdgeWeight "e1" 5) ∧
    Graph.EdgeWeightsInRange ((gDemo.addNode "d" "D" "concept" []).2) := by
  have hinv : gDemo.EdgeWeightsInRange := by
    intro p hp
    simp only [gDemo, List.mem_cons, List.not_mem_nil, or_false] at hp
    rcases hp with h | h <;> subst h <;> refine ⟨by norm_num [edgeAB, edgeBC], by norm_num [edgeAB, edgeBC]⟩
  exact ⟨hinv,
    edge_weight_invariant_preservation.2.2.2.2.2.1 gDemo "e1" 5 hinv,
    edge_weight_invariant_preservation.1 gDemo "d" "D" "concept" [] hinv⟩

/-- C8: on any well-formed graph, fromJSON(toJSON(g)) rebuilds exactly g
(identical node and edge maps), regardless of the receiving graph instance. -/
theorem toJSON_fromJSON_roundtrip (g h : Graph) (hwf : g.WF) :
    h.fromJSON g.toJSON = g := by
  obtain ⟨hnid, hnnd, heid, hend⟩ := hwf
  unfold Graph.fromJSON Graph.toJSON
  have hn := foldl_jsSet_rebuild GraphNode.id g.nodes []
    (fun p hp => hnid p hp) (by simpa using hnnd)
  have he := foldl_jsSet_rebuild GraphEdge.id g.edges []
    (fun p hp => heid p hp) (by simpa using hend)
  simp only [List.nil_append] at hn he
  rw [show (fun acc n => jsSet acc n.id n) = (fun a (v : GraphNode) => jsSet a v.id v) from rfl]
  rw [show (fun acc e => jsSet acc e.id e) = (fun a (v : GraphEdge) => jsSet a v.id v) from rfl]
  rw [hn, he]

/-- Witness for C8 at a concrete well-formed graph. -/
theorem toJSON_fromJSON_roundtrip_witness :
    Graph.fromJSON Graph.empty gDemo.toJSON = gDemo := by
  refine toJSON_fromJSON_roundtrip gDemo Graph.empty ?_
  unfold Graph.WF
  refine ⟨by decide, by decide, by decide, by decide⟩

/-- C9: for every configuration, every quadruple of category detectors and
every list of encoded states, detectPatterns returns a list sorted in
descending score order whose length is at most maxPatterns. -/
theorem detectPatterns_sorted_and_bounded (opts : PatternDetectionOptions)
    (detectClusters detectSequences detectSimilarities detectAnomalies :
      List EncodedState → List Pattern)
    (states : List EncodedState) :
    List.Sorted scoreGE
      (detectPatterns opts detectClusters detectSequences detectSimilarities
        detectAnomalies states) ∧
    (detectPatterns opts detectClusters detectSequences detectSimilarities
        detectAnomalies states).length ≤ opts.maxPatterns := by
  constructor
  · exact List.Pairwise.sublist (List.take_sublist _ _)
      (List.sorted_insertionSort scoreGE _)
  · calc (detectPatterns opts detectClusters detectSequences detectSimilarities
        detectAnomalies states).length
        = min opts.maxPatterns (List.insertionSort scoreGE _).length := List.length_take _ _
      _ ≤ opts.maxPatterns := min_le_left _ _

/-- Sum over all dimensions of the squared magnitude of the values. -/
noncomputable def sumSquaredMagnitudes (l : List Cplx) : ℝ :=
  (l.map (fun v => v.magnitude ^ 2)).sum

/-- A left fold that accumulates g over a list is the initial value plus the
sum of g over the list. -/
theorem foldl_add_eq_sum (g : Cplx → ℝ) :
    ∀ (l : List Cplx) (a : ℝ), l.foldl (fun s v => s + g v) a = a + (l.map g).sum := by
  intro l
  induction l with
  | nil => intro a; simp
  | cons hd tl ih =>
    intro a
    simp only [List.foldl_cons, List.map_cons, List.sum_cons]
    rw [ih]
    ring

/-- The quantity (v * conj v).re summed by normalize is the squared magnitude. -/
theorem multiply_conjugate_re (v : Cplx) : (v.multiply v.conjugate).re = v.magnitude ^ 2 := by
  have hnn : 0 ≤ v.re * v.re + v.im * v.im :=
    add_nonneg (mul_self_nonneg v.re) (mul_self_nonneg v.im)
  simp only [Cplx.multiply, Cplx.conjugate, Cplx.magnitude]
  rw [Real.sq_sqrt hnn]
  ring

/-- Squared magnitude written on the components. -/
theorem magnitude_sq (v : Cplx) : v.magnitude ^ 2 = v.re * v.re + v.im * v.im := by
  have hnn : 0 ≤ v.re * v.re + v.im * v.im :=
    add_nonneg (mul_self_nonneg v.re) (mul_self_nonneg v.im)
  simp only [Cplx.magnitude]
  exact Real.sq_sqrt hnn

/-- C6: after QuantumField.normalize the summed squared magnitudes equal 1
exactly, unless every value was zero, in which case the field is returned
unchanged (no division happens). -/
theorem normalize_unit_norm_or_zero (f : QuantumField) :
    ((∀ v ∈ f.values, v = Cplx.zero) → f.normalize = f) ∧
    ((∃ v ∈ f.values, v ≠ Cplx.zero) → sumSquaredMagnitudes (f.normalize).values = 1) := by
  have hfold : f.values.foldl (fun sum v => sum + (v.multiply v.conjugate).re) 0 =
      sumSquaredMagnitudes f.values := by
    rw [foldl_add_eq_sum]
    simp only [zero_add, sumSquaredMagnitudes]
    congr 1
    exact List.map_congr_left (fun v _ => multiply_conjugate_re v)
  have hnonneg : ∀ x ∈ f.values.map (fun v => v.magnitude ^ 2), 0 ≤ x := by
    intro x hx
    rcases List.mem_map.mp hx with ⟨v, _, hv⟩
    exact hv ▸ sq_nonneg v.magnitude
  constructor
  · intro hall
    have hS : sumSquaredMagnitudes f.values = 0 := by
      apply List.sum_eq_zero
      intro x hx
      rcases List.mem_map.mp hx with ⟨v, hvmem, hv⟩
      rw [← hv, hall v hvmem]
      simp [magnitude_sq, Cplx.zero]
    simp only [QuantumField.normalize, hfold, hS, Real.sqrt_zero, lt_irrefl, if_false]
  · intro hex
    rcases hex with ⟨v0, hv0mem, hv0⟩
    have hv0pos : 0 < v0.magnitude ^ 2 := by
      rw [magnitude_sq]
      rcases (not_and_or.mp (fun hc => hv0 (Cplx.ext hc.1 hc.2))) with h | h
      · have := mul_self_pos.mpr h
        nlinarith [mul_self_nonneg v0.im]
      · have := mul_self_pos.mpr h
        nlinarith [mul_self_nonneg v0.re]
    have hSpos : 0 < sumSquaredMagnitudes f.values := by
      refine lt_of_lt_of_le hv0pos ?_
      exact List.single_le_sum hnonneg _ (List.mem_map_of_mem _ hv0mem)
    have hnormpos : 0 < Real.sqrt (sumSquaredMagnitudes f.values) :=
      Real.sqrt_pos.mpr hSpos
    simp only [QuantumField.normalize, hfold, hnormpos, if_true]
    set S := sumSquaredMagnitudes f.values with hSdef
    set c := 1 / Real.sqrt S with hc
    have hscale : ∀ v : Cplx, (v.scale c).magnitude ^ 2 = v.magnitude ^ 2 * c ^ 2 := by
      intro v
      rw [magnitude_sq, magnitude_sq]
      simp only [Cplx.scale]
      ring
    have hmap : ((f.values.map (fun v => v.scale c)).map (fun v => v.magnitude ^ 2)) =
        f.values.map (fun v => v.magnitude ^ 2 * c ^ 2) := by
      rw [List.map_map]
      exact List.map_congr_left (fun v _ => hscale v)
    have hsum : sumSquaredMagnitudes (f.values.map (fun v => v.scale c)) = S * c ^ 2 := by
      rw [sumSquaredMagnitudes, hmap]
      rw [show (fun v : Cplx => v.magnitude ^ 2 * c ^ 2) =
        (fun v : Cplx => (fun w : Cplx => w.magnitude ^ 2) v * c ^ 2) from rfl]
      rw [List.sum_map_mul_right]
      rfl
    rw [hsum, hc]
    rw [div_pow, one_pow, Real.sq_sqrt (le_of_lt hSpos)]
    field_simp

/-- A concrete one-dimensional field holding the value 3 + 4i. -/
noncomputable def fieldThreeFour : QuantumField := ⟨1, [⟨3, 4⟩], [0], 0, [], [Cplx.zero]⟩

/-- Witness for C6: the all-zero constructor field is left unchanged, and a
field holding 3 + 4i normalizes to summed squared magnitude exactly 1. -/
theorem normalize_unit_norm_or_zero_witness :
    (mkQuantumField 1).normalize = mkQuantumField 1 ∧
    sumSquaredMagnitudes (fieldThreeFour.normalize).values = 1 := by
  constructor
  · refine (normalize_unit_norm_or_zero (mkQuantumField 1)).1 ?_
    intro v hv
    simpa [mkQuantumField] using hv
  · refine (normalize_unit_norm_or_zero fieldThreeFour).2 ?_
    refine ⟨⟨3, 4⟩, by simp [fieldThreeFour], ?_⟩
    intro hc
    have h3 : (3 : ℝ) = 0 := congrArg Cplx.re hc
    norm_num at h3

/-- C5: QuantumField.initialize is deterministic and ignores all prior field
state: two fields with the same dimension count (as set up by the
constructor: dimensions = values.length = phase.length) initialized with the
same token get identical values, phase arrays and coherence. -/
theorem initialize_deterministic (token : String) (d : ℕ) (f1 f2 : QuantumField)
    (h1d : f1.dimensions = d) (h2d : f2.dimensions = d)
    (h1v : f1.values.length = d) (h2v : f2.values.length = d)
    (h1p : f1.phase.length = d) (h2p : f2.phase.length = d) :
    (f1.initField token).values = (f2.initField token).values ∧
    (f1.initField token).phase = (f2.initField token).phase ∧
    (f1.initField token).coherence = (f2.initField token).coherence := by
  have e1 : f1.phase.drop d = [] := by
    rw [← h1p]
    exact List.drop_length _
  have e2 : f2.phase.drop d = [] := by
    rw [← h2p]
    exact List.drop_length _
  refine ⟨?_, ?_, ?_⟩ <;>
    simp only [QuantumField.initField, h1d, h2d, h1v, h2v, e1, e2]

/-- A concrete one-dimensional field with arbitrary nonzero prior state. -/
noncomputable def fieldFiveThree : QuantumField := ⟨1, [⟨5, 3⟩], [2], 7, [], []⟩

/-- Witness for C5: a fresh one-dimensional field and a field with junk prior
state agree after initialize("x") on values, phase array and coherence. -/
theorem initialize_deterministic_witness :
    ((mkQuantumField 1).initField "x").values = (fieldFiveThree.initField "x").values ∧
    ((mkQuantumField 1).initField "x").phase = (fieldFiveThree.initField "x").phase ∧
    ((mkQuantumField 1).initField "x").coherence = (fieldFiveThree.initField "x").coherence := by
  exact initialize_deterministic "x" 1 (mkQuantumField 1) fieldFiveThree
    rfl rfl (by simp [mkQuantumField]) (by simp [fieldFiveThree])
    (by simp [mkQuantumField]) (by simp [fieldFiveThree])

/-- The empty token hashes to 0, so its prime-factor list is [1]. -/
theorem getPrimeFactors_of_empty_token : getPrimeFactors ((strHash "").natAbs + 1) = [1] := rfl

/-- The field produced by initializing a fresh 2-dimensional QuantumField with
the empty token. -/
noncomputable def gEmptyTok : QuantumField := (mkQuantumField 2).initField ""

/-- With the single pseudo prime factor 1, the spectral sum of one pair is the
complex value 1. -/
theorem spectralSum_single_one (tau : ℝ) :
    (⟨0, 0⟩ : Cplx).add (spectralFormFactor 1 1 tau) = ⟨1, 0⟩ := by
  simp [Cplx.add, spectralFormFactor]

/-- The argument of the complex number 1 + 0i is zero. -/
theorem arg_one_zero : Complex.arg ⟨1, 0⟩ = 0 := by
  rw [show (⟨1, 0⟩ : ℂ) = 1 from rfl]
  exact Complex.arg_one

/-- The values written by initialize("") on two dimensions are 1 + 0i twice. -/
theorem gEmptyTok_values : gEmptyTok.values = [⟨1, 0⟩, ⟨1, 0⟩] := by
  simp only [gEmptyTok, QuantumField.initField, mkQuantumField,
    getPrimeFactors_of_empty_token]
  norm_num [List.range_succ, spectralSum_single_one, berryPhase, Cplx.phaseOf,
    Cplx.magnitude, Cplx.fromPolar, Cplx.zero, arg_one_zero]

/-- The coherence computed by initialize("") on two dimensions: the
sqrt(·/dimensions) step runs inside the per-dimension loop, so the result is
the nested radical sqrt((sqrt(1/2) + 1)/2), not the RMS value 1. -/
theorem gEmptyTok_coherence :
    gEmptyTok.coherence = Real.sqrt ((Real.sqrt (1 / 2) + 1) / 2) := by
  simp only [gEmptyTok, QuantumField.initField, mkQuantumField,
    getPrimeFactors_of_empty_token]
  norm_num [List.range_succ, spectralSum_single_one, berryPhase, Cplx.phaseOf,
    Cplx.magnitude, Cplx.fromPolar, Cplx.zero, arg_one_zero]

/-- C3: the coherence set by initialize is NOT the RMS magnitude across
dimensions.  On the failing input (fresh 2-dimensional field, token ""), the
RMS value is exactly 1 while the code computes sqrt((sqrt(1/2) + 1)/2)
≈ 0.924, because the source applies the normalization line inside the
per-dimension loop instead of after it. -/
theorem initialize_coherence_not_rms :
    Real.sqrt (sumSquaredMagnitudes gEmptyTok.values / (gEmptyTok.dimensions : ℝ)) = 1 ∧
    gEmptyTok.coherence ≠
      Real.sqrt (sumSquaredMagnitudes gEmptyTok.values / (gEmptyTok.dimensions : ℝ)) := by
  have hdim : gEmptyTok.dimensions = 2 := rfl
  have hsum : sumSquaredMagnitudes gEmptyTok.values = 2 := by
    rw [gEmptyTok_values]
    norm_num [sumSquaredMagnitudes, magnitude_sq]
  have hrms : Real.sqrt (sumSquaredMagnitudes gEmptyTok.values / (gEmptyTok.dimensions : ℝ)) = 1 := by
    rw [hsum, hdim]
    norm_num [Real.sqrt_one]
  refine ⟨hrms, ?_⟩
  rw [hrms, gEmptyTok_coherence]
  intro hcontra
  rw [Real.sqrt_eq_one] at hcontra
  have h2 : Real.sqrt (1 / 2) = 1 := by linarith
  rw [Real.sqrt_eq_one] at h2
  norm_num at h2

/-- C10: the TimeStep history of evolveState does not depend on the initial
wavefunction values (or its amplitude, phase or internal connection tags):
initial states agreeing on wavefunction dimension count, source node,
connection list and metadata produce identical histories, because cloneState
builds a fresh all-zero WaveFunction and never copies the values. -/
theorem evolveState_ignores_initial_wavefunction_values (opts : EvolutionOptions)
    (s1 s2 : EncodedState)
    (hlen : s1.waveFunction.dimensions.length = s2.waveFunction.dimensions.length)
    (hsrc : s1.sourceNode = s2.sourceNode)
    (hconn : s1.connections = s2.connections)
    (hmeta : s1.metadata = s2.metadata) :
    evolveState opts s1 = evolveState opts s2 := by
  unfold evolveState
  congr 1
  unfold cloneState
  rw [hlen, hsrc, hconn, hmeta]

/-- The EvolutionOptions constructor defaults. -/
noncomputable def defaultEvolutionOptions : EvolutionOptions := ⟨1 / 100, 1, [], true, true⟩

/-- A demo metadata record. -/
noncomputable def metaDemo : StateMetadata := ⟨"semantic-quantum", 0, ⟨512, 360, 1, 1 / 2⟩⟩

/-- A demo encoded state whose 1-dimensional wavefunction holds 1 + 2i. -/
noncomputable def stateOneTwo : EncodedState := ⟨⟨[⟨1, 2⟩], 0, 0, []⟩, nodeA, ["b"], metaDemo⟩

/-- A demo encoded state like stateOneTwo but holding 3 + 4i with different
amplitude, phase and internal tags. -/
noncomputable def stateThreeFour : EncodedState := ⟨⟨[⟨3, 4⟩], 5, 1, ["x"]⟩, nodeA, ["b"], metaDemo⟩

/-- Witness for C10 on two concrete states with different wavefunction
values. -/
theorem evolveState_ignores_initial_wavefunction_values_witness :
    evolveState defaultEvolutionOptions stateOneTwo =
    evolveState defaultEvolutionOptions stateThreeFour := by
  exact evolveState_ignores_initial_wavefunction_values defaultEvolutionOptions
    stateOneTwo stateThreeFour rfl rfl rfl rfl

/-
Scenario C of the spec: dissipation rate 0.5, timeStep 0.1, totalTime 1.0.
Because cloneState zeroes the wavefunction and normalize leaves the zero
vector untouched, every recorded totalEnergy is 0.
-/

/-- All dimension values of a wavefunction are zero. -/
def WaveAllZero (w : WaveFunction) : Prop := ∀ v ∈ w.dimensions, v = Cplx.zero

/-- The dissipation operator maps an all-zero wavefunction to an all-zero
wavefunction. -/
theorem dissipation_preserves_zero (r t : ℝ) (w : WaveFunction) (h : WaveAllZero w) :
    WaveAllZero ((createDissipationOperator r).apply w t) := by
  intro v hv
  simp only [createDissipationOperator] at hv
  rcases List.mem_map.mp hv with ⟨u, hu, hue⟩
  rw [← hue, h u hu]
  simp [Cplx.scale, Cplx.zero]

/-- normalize maps an all-zero wavefunction to an all-zero wavefunction. -/
theorem normalize_preserves_zero (w : WaveFunction) (h : WaveAllZero w) :
    WaveAllZero w.normalize := by
  simp only [WaveFunction.normalize]
  split
  · exact h
  · intro v hv
    rcases List.mem_map.mp hv with ⟨u, hu, hue⟩
    rw [← hue, h u hu]
    simp [Cplx.scale, Cplx.zero]

/-- The energy fold over an all-zero value list returns its accumulator. -/
theorem foldl_energy_zero (l : List Cplx) (h : ∀ v ∈ l, v = Cplx.zero) :
    ∀ a : ℝ, l.foldl (fun a dim => a + (dim.re * dim.re + dim.im * dim.im)) a = a := by
  induction l with
  | nil => intro a; rfl
  | cons hd tl ih =>
    intro a
    have hhd : hd = Cplx.zero := h hd (List.mem_cons_self hd tl)
    rw [List.foldl_cons, hhd]
    have : a + (Cplx.zero.re * Cplx.zero.re + Cplx.zero.im * Cplx.zero.im) = a := by
      simp [Cplx.zero]
    rw [this]
    exact ih (fun v hv => h v (List.mem_cons_of_mem hd hv)) a

/-- A single all-zero state records total energy 0. -/
theorem calculateMetrics_totalEnergy_zero (s : EncodedState) (h : WaveAllZero s.waveFunction) :
    (calculateMetrics [s]).totalEnergy = 0 := by
  simp only [calculateMetrics, List.foldl_cons, List.foldl_nil]
  exact foldl_energy_zero _ h 0

/-- recordTimeStep always stores the metrics of the live states. -/
theorem recordTimeStep_metrics (opts : EvolutionOptions) (states : List EncodedState) (t : ℝ) :
    (recordTimeStep opts states t).metrics = calculateMetrics states := by
  unfold recordTimeStep
  split <;> rfl

/-- Every recorded totalEnergy of the dissipation-only loop started from an
all-zero state is 0. -/
theorem evolveLoop_dissipation_energies (r : ℝ) (opts : EvolutionOptions)
    (hops : opts.operators = [createDissipationOperator r]) :
    ∀ (n : ℕ) (t : ℝ) (s : EncodedState), WaveAllZero s.waveFunction →
    (evolveLoop opts n t s).map (fun ts => ts.metrics.totalEnergy) =
      List.replicate n (0 : ℝ) := by
  intro n
  induction n with
  | zero => intro t s _; rfl
  | succ n ih =>
    intro t s hz
    have hz1 : WaveAllZero (applyOperators opts.operators s.waveFunction t).normalize := by
      apply normalize_preserves_zero
      rw [hops]
      simpa [applyOperators] using dissipation_preserves_zero r t s.waveFunction hz
    simp only [evolveLoop, List.map_cons, List.replicate_succ]
    rw [recordTimeStep_metrics]
    rw [calculateMetrics_totalEnergy_zero _ hz1, ih (t + opts.timeStep) _ hz1]

/-- The Scenario C configuration: only dissipation(0.5), timeStep 0.1,
totalTime 1.0, default preserveConnections and trackMetrics. -/
noncomputable def scenarioCOptions : EvolutionOptions :=
  ⟨1 / 10, 1, [createDissipationOperator (1 / 2)], true, true⟩

/-- The Scenario C loop runs 11 times (t = 0, 0.1, ..., 1.0). -/
theorem scenarioC_iterations : evolveIterations scenarioCOptions = 11 := by
  unfold evolveIterations scenarioCOptions
  rw [if_pos (by norm_num)]
  rw [show (1 : ℝ) / (1 / 10) = ((10 : ℤ) : ℝ) by norm_num, Int.floor_intCast]
  rfl

/-- C1: with only dissipation(rate 0.5) over totalTime 1.0 and timeStep 0.1,
for EVERY initial state the recorded totalEnergy sequence is the constant
list of eleven zeros, hence NOT strictly decreasing: cloneState discards the
initial wavefunction values and normalize fixes the zero vector, contradicting
the spec scenario and the repository test that expects decreasing energies. -/
theorem evolveState_dissipation_energy_constant_zero (s : EncodedState) :
    (evolveState scenarioCOptions s).map (fun ts => ts.metrics.totalEnergy) =
      List.replicate 11 (0 : ℝ) ∧
    ¬ List.Chain' (fun a b => b < a)
      ((evolveState scenarioCOptions s).map (fun ts => ts.metrics.totalEnergy)) := by
  have hmap : (evolveState scenarioCOptions s).map (fun ts => ts.metrics.totalEnergy) =
      List.replicate 11 (0 : ℝ) := by
    unfold evolveState
    rw [scenarioC_iterations]
    apply evolveLoop_dissipation_energies (1 / 2) scenarioCOptions rfl
    intro v hv
    simp only [cloneState, mkWaveFunction] at hv
    exact List.eq_of_mem_replicate hv
  refine ⟨hmap, ?_⟩
  rw [hmap]
  intro hch
  rw [show List.replicate 11 (0 : ℝ) = 0 :: 0 :: List.replicate 9 0 from rfl] at hch
  exact absurd (List.chain'_cons.mp hch).1 (lt_irrefl 0)

/-
Scenario B of the spec: repeated learnFromInteraction with resonance 1.0
between the same two fields.  The resonance history stored under the source
key is exactly an iteration of the push/cap/decay update.
-/

/-- decayFrom preserves the length of the list. -/
theorem length_decayFrom (decay : ℝ) (len : ℕ) :
    ∀ (i : ℕ) (l : List ℝ), (decayFrom decay len i l).length = l.length := by
  intro i l
  induction l generalizing i with
  | nil => rfl
  | cons hd tl ih => simp [decayFrom, ih]

/-- Entry j of decayFrom started at index i is the original entry times
decay^(len-(i+j)-1). -/
theorem getElem_decayFrom (decay : ℝ) (len : ℕ) :
    ∀ (l : List ℝ) (i j : ℕ) (hj : j < l.length)
      (hj2 : j < (decayFrom decay len i l).length),
      (decayFrom decay len i l)[j] = l[j] * decay ^ (len - (i + j) - 1) := by
  intro l
  induction l with
  | nil =>
    intro i j hj _
    exact absurd hj (Nat.not_lt_zero j)
  | cons hd tl ih =>
    intro i j hj hj2
    cases j with
    | zero => simp [decayFrom]
    | succ j =>
      have hjt : j < tl.length := Nat.lt_of_succ_lt_succ hj
      have hjt2 : j < (decayFrom decay len (i + 1) tl).length := by
        rw [length_decayFrom]
        exact hjt
      have := ih (i + 1) j hjt hjt2
      simp only [decayFrom, List.getElem_cons_succ]
      rw [this]
      congr 2
      omega

/-- jsGet after jsSet at the same key returns the stored value. -/
theorem jsGet_jsSet_self {β : Type} (l : List (String × β)) (k : String) (v : β) :
    jsGet (jsSet l k v) k = some v := by
  induction l with
  | nil => simp [jsSet, jsGet]
  | cons hd tl ih =>
    by_cases hhd : hd.1 == k
    · have h1 : jsSet (hd :: tl) k v =
          (k, v) :: tl.map (fun p => if p.1 == k then (k, v) else p) := by
        simp only [jsSet, List.any_cons, hhd, Bool.true_or, if_true, List.map_cons]
      rw [h1, jsGet, List.find?_cons_of_pos _ (by simp)]
      rfl
    · by_cases htl : tl.any (fun p => p.1 == k)
      · have h1 : jsSet (hd :: tl) k v =
            hd :: tl.map (fun p => if p.1 == k then (k, v) else p) := by
          simp only [jsSet, List.any_cons, hhd, Bool.false_or, htl, if_true, List.map_cons]
          rw [if_neg (by simpa using hhd)]
        have h2 : jsSet tl k v = tl.map (fun p => if p.1 == k then (k, v) else p) := by
          simp [jsSet, htl]
        rw [h1, jsGet, List.find?_cons_of_neg _ (by simpa using hhd), ← jsGet, ← h2, ih]
      · have h1 : jsSet (hd :: tl) k v = hd :: (tl ++ [(k, v)]) := by
          simp [jsSet, List.any_cons, hhd, htl]
        have h2 : jsSet tl k v = tl ++ [(k, v)] := by
          simp [jsSet, htl]
        rw [h1, jsGet, List.find?_cons_of_neg _ (by simpa using hhd), ← jsGet, ← h2, ih]

/-- n repeated learnFromInteraction calls with the same source, target,
resonance and context. -/
noncomputable def learnerAfter (keyOf : QuantumField → Option LearningContext → String)
    (st0 : FieldLearner) (source target : QuantumField) (resonance : ℝ)
    (context : Option LearningContext) : ℕ → FieldLearner
  | 0 => st0
  | n + 1 => FieldLearner.learnFromInteraction keyOf
      (learnerAfter keyOf st0 source target resonance context n) source target resonance context

/-- The history update performed by updateResonanceHistory for resonance 1:
push 1, drop the oldest entry past 100, decay everything. -/
noncomputable def updateHist (d : ℝ) (history : List ℝ) : List ℝ :=
  decayAll d (if 100 < (history ++ [1]).length then (history ++ [1]).drop 1 else history ++ [1])

/-- The history stored under the source key after n updates from an empty
history. -/
noncomputable def histIterate (d : ℝ) : ℕ → List ℝ
  | 0 => []
  | n + 1 => updateHist d (histIterate d n)

/-- learnFromInteraction never changes the decay factor. -/
theorem learnerAfter_decayFactor (keyOf : QuantumField → Option LearningContext → String)
    (st0 : FieldLearner) (source target : QuantumField) (resonance : ℝ)
    (context : Option LearningContext) :
    ∀ n, (learnerAfter keyOf st0 source target resonance context n).decayFactor =
      st0.decayFactor := by
  intro n
  induction n with
  | zero => rfl
  | succ n ih =>
    simp only [learnerAfter, FieldLearner.learnFromInteraction,
      FieldLearner.updateResonanceHistory]
    exact ih

/-- The average of a list of JS numbers: sum / length. -/
noncomputable def averageOf (l : List ℝ) : ℝ := l.sum / l.length

/-- After n repeated resonance-1 interactions from a fresh learner, the
retrieved resonance pattern of the source is the n-fold history iteration. -/
theorem pattern_after_iterations (keyOf : QuantumField → Option LearningContext → String)
    (fd : ℕ) (lr mo d : ℝ) (source target : QuantumField)
    (context : Option LearningContext) :
    ∀ n, FieldLearner.getResonancePattern keyOf
      (learnerAfter keyOf (mkFieldLearner fd lr mo d) source target 1 context n)
      source context = histIterate d n := by
  intro n
  induction n with
  | zero => rfl
  | succ n ih =>
    have hd : (learnerAfter keyOf (mkFieldLearner fd lr mo d) source target 1 context n).decayFactor = d :=
      learnerAfter_decayFactor keyOf (mkFieldLearner fd lr mo d) source target 1 context n
    simp only [learnerAfter, FieldLearner.learnFromInteraction,
      FieldLearner.updateResonanceHistory, FieldLearner.getResonancePattern] at ih ⊢
    rw [jsGet_jsSet_self, Option.getD_some, hd, histIterate, updateHist, ih]

/-- The m-th triangular number; entry ages accumulate decay exponents
0, 1, 2, ... on successive updates, totalling triangle(age). -/
def triangle : ℕ → ℕ
  | 0 => 0
  | m + 1 => triangle m + (m + 1)

/-- Triangular numbers are monotone. -/
theorem triangle_mono : ∀ {m n : ℕ}, m ≤ n → triangle m ≤ triangle n := by
  intro m n h
  induction n with
  | zero =>
    cases Nat.le_zero.mp h
    exact le_refl _
  | succ n ih =>
    rcases Nat.eq_or_lt_of_le h with he | hlt
    · exact he ▸ le_refl _
    · exact le_trans (ih (Nat.lt_succ_iff.mp hlt)) (by rw [triangle]; exact Nat.le_add_right _ _)

/-- One push-and-decay step on the closed-form history: appending a fresh 1 to
the m-entry history of decay powers and decaying all entries advances every
triangular exponent by one age. -/
theorem decay_step (d : ℝ) (m : ℕ) :
    decayAll d ((List.range m).map (fun i => d ^ triangle (m - 1 - i)) ++ [1]) =
    (List.range (m + 1)).map (fun i => d ^ triangle (m - i)) := by
  have hlen : ((List.range m).map (fun i => d ^ triangle (m - 1 - i)) ++ [1]).length = m + 1 := by
    simp
  apply List.ext_getElem
  · simp [decayAll, length_decayFrom]
  · intro j h1 h2
    have hj : j < m + 1 := by
      simpa [decayAll, length_decayFrom] using h1
    have hjl : j < ((List.range m).map (fun i => d ^ triangle (m - 1 - i)) ++ [1]).length := by
      rw [hlen]
      exact hj
    have hentry :
        (decayAll d ((List.range m).map (fun i => d ^ triangle (m - 1 - i)) ++ [1]))[j] =
        ((List.range m).map (fun i => d ^ triangle (m - 1 - i)) ++ [1])[j] *
          d ^ (((List.range m).map (fun i => d ^ triangle (m - 1 - i)) ++ [1]).length -
            (0 + j) - 1) :=
      getElem_decayFrom d _ _ 0 j hjl h1
    rw [hentry, List.getElem_map, List.getElem_range, hlen]
    rcases Nat.lt_succ_iff_lt_or_eq.mp hj with hjm | hjm
    · rw [List.getElem_append_left (by simpa using hjm), List.getElem_map, List.getElem_range,
        ← pow_add]
      congr 1
      have hexp : m + 1 - (0 + j) - 1 = (m - 1 - j) + 1 := by omega
      have harg : m - j = (m - 1 - j) + 1 := by omega
      rw [hexp, harg, triangle]
    · subst hjm
      rw [List.getElem_append_right (by simp)]
      simp [triangle]
/-- The closed form of the stored history after n updates: min(n,100) entries,
the entry at position i carrying decay exponent triangle(age) where age runs
from min(n,100)-1 down to 0. -/
noncomputable def decayedHistory (d : ℝ) (n : ℕ) : List ℝ :=
  (List.range (min n 100)).map (fun i => d ^ triangle (min n 100 - 1 - i))

/-- The iterated history equals its closed form: below 100 entries each update
appends a fresh entry and ages the rest; from 100 entries on, the shift drops
the oldest entry and the history is a fixed point. -/
theorem histIterate_closed (d : ℝ) : ∀ n, histIterate d n = decayedHistory d n := by
  intro n
  induction n with
  | zero => simp [histIterate, decayedHistory]
  | succ n ih =>
    rw [show histIterate d (n + 1) = updateHist d (histIterate d n) from rfl, ih]
    by_cases hn : n < 100
    · have hmin : min n 100 = n := min_eq_left (le_of_lt hn)
      have hmin2 : min (n + 1) 100 = n + 1 := min_eq_left (by omega)
      unfold updateHist decayedHistory
      rw [hmin, hmin2]
      rw [if_neg (by simp; omega)]
      exact decay_step d n
    · have h100 : 100 ≤ n := le_of_not_lt hn
      have hmin : min n 100 = 100 := min_eq_right h100
      have hmin2 : min (n + 1) 100 = 100 := min_eq_right (by omega)
      unfold updateHist decayedHistory
      rw [hmin, hmin2]
      rw [if_pos (by simp)]
      have hdrop : ((List.range 100).map (fun i => d ^ triangle (100 - 1 - i)) ++ [1]).drop 1 =
          (List.range 99).map (fun i => d ^ triangle (99 - 1 - i)) ++ [1] := by
        rw [show (100 : ℕ) = 99 + 1 from rfl, List.range_succ_eq_map]
        simp only [List.map_cons, List.map_map, List.cons_append, List.drop_succ_cons,
          List.drop_zero]
        congr 1
      rw [hdrop]
      exact decay_step d 99

/-- Reflecting the index inside a sum over range leaves the sum unchanged. -/
theorem sum_map_range_reflect (g : ℕ → ℝ) :
    ∀ n, ((List.range n).map (fun i => g (n - 1 - i))).sum = ((List.range n).map g).sum := by
  intro n
  induction n with
  | zero => rfl
  | succ n ih =>
    conv_lhs => rw [List.range_succ_eq_map]
    rw [List.map_cons, List.sum_cons, List.map_map]
    have h1 : ((List.range n).map ((fun i => g (n + 1 - 1 - i)) ∘ Nat.succ)) =
        (List.range n).map (fun i => g (n - 1 - i)) := by
      apply List.map_congr_left
      intro i _
      simp only [Function.comp]
      congr 1
      omega
    rw [h1, ih]
    conv_rhs => rw [List.range_succ]
    rw [List.map_append, List.sum_append]
    simp [add_comm]

/-- The sum of the closed-form history is the sum of the first min(n,100)
triangular decay powers. -/
theorem decayedHistory_sum (d : ℝ) (n : ℕ) :
    (decayedHistory d n).sum = ((List.range (min n 100)).map (fun m => d ^ triangle m)).sum := by
  unfold decayedHistory
  exact sum_map_range_reflect (fun m => d ^ triangle m) (min n 100)

/-- The closed-form history has min(n,100) entries. -/
theorem decayedHistory_length (d : ℝ) (n : ℕ) :
    (decayedHistory d n).length = min n 100 := by
  simp [decayedHistory]

/-- For decay factors in (0,1], the average of the stored history never
increases with another update (strict decrease below the 100-entry cap,
equality at the fixed point beyond it). -/
theorem decayedHistory_avg_antitone (d : ℝ) (hd0 : 0 < d) (hd1 : d ≤ 1) (n : ℕ)
    (hn : 1 ≤ n) :
    averageOf (decayedHistory d (n + 1)) ≤ averageOf (decayedHistory d n) := by
  by_cases hcase : n < 100
  · have hmin : min n 100 = n := min_eq_left (le_of_lt hcase)
    have hmin2 : min (n + 1) 100 = n + 1 := min_eq_left (by omega)
    have hτ : ∀ m ∈ List.range n, d ^ triangle n ≤ d ^ triangle m := by
      intro m hm
      exact pow_le_pow_of_le_one (le_of_lt hd0) hd1
        (triangle_mono (le_of_lt (List.mem_range.mp hm)))
    have hS_lb : (n : ℝ) * d ^ triangle n ≤
        ((List.range n).map (fun m => d ^ triangle m)).sum := by
      have h1 : ((List.range n).map (fun _ => d ^ triangle n)).sum ≤
          ((List.range n).map (fun m => d ^ triangle m)).sum :=
        List.sum_le_sum hτ
      rwa [List.map_const', List.sum_replicate, List.length_range, nsmul_eq_mul] at h1
    have havg1 : averageOf (decayedHistory d n) =
        ((List.range n).map (fun m => d ^ triangle m)).sum / n := by
      rw [averageOf, decayedHistory_sum, decayedHistory_length, hmin]
    have havg2 : averageOf (decayedHistory d (n + 1)) =
        (((List.range n).map (fun m => d ^ triangle m)).sum + d ^ triangle n) / (n + 1) := by
      rw [averageOf, decayedHistory_sum, decayedHistory_length, hmin2]
      rw [List.range_succ, List.map_append, List.sum_append]
      push_cast
      simp
    rw [havg1, havg2]
    have hnpos : (0 : ℝ) < n := by
      have : 0 < n := hn
      exact_mod_cast this
    rw [div_le_div_iff (by positivity) hnpos]
    nlinarith [hS_lb]
  · have heq : decayedHistory d (n + 1) = decayedHistory d n := by
      unfold decayedHistory
      rw [min_eq_right (by omega), min_eq_right (by omega)]
    rw [heq]

/-- C2 as amended: for any key function, learner configuration with decay
factor in (0,1], fields and context, the average of the resonance history
returned by getResonancePattern for the source is monotonically
NON-INCREASING in the number of resonance-1.0 learnFromInteraction calls (the
per-append decay can only lower or preserve the average; it never rises). -/
theorem learnFromInteraction_average_nonincreasing
    (keyOf : QuantumField → Option LearningContext → String) (fd : ℕ) (lr mo d : ℝ)
    (source target : QuantumField) (context : Option LearningContext) (n : ℕ)
    (hd0 : 0 < d) (hd1 : d ≤ 1) (hn : 1 ≤ n) :
    averageOf (FieldLearner.getResonancePattern keyOf
      (learnerAfter keyOf (mkFieldLearner fd lr mo d) source target 1 context (n + 1))
      source context) ≤
    averageOf (FieldLearner.getResonancePattern keyOf
      (learnerAfter keyOf (mkFieldLearner fd lr mo d) source target 1 context n)
      source context) := by
  rw [pattern_after_iterations, pattern_after_iterations, histIterate_closed, histIterate_closed]
  exact decayedHistory_avg_antitone d hd0 hd1 n hn

/-- A key function standing for getFieldKey with all fields colliding on one
serialization (source and target are the same field below, so their keys agree
in any case). -/
noncomputable def constKey : QuantumField → Option LearningContext → String := fun _ _ => "k"

/-- The default-configured learner (512 dimensions, learning rate 0.01,
momentum 0.9, decay factor 0.99). -/
noncomputable def learnerDemo : FieldLearner := mkFieldLearner 512 (1 / 100) (9 / 10) (99 / 100)

/-- A fresh 512-dimensional field used as both source and target. -/
noncomputable def fieldDemo : QuantumField := mkQuantumField 512

/-- The default learner after n resonance-1.0 self-interactions of
fieldDemo. -/
noncomputable def learnerDemoAfter (n : ℕ) : FieldLearner :=
  learnerAfter constKey learnerDemo fieldDemo fieldDemo 1 none n

/-- Witness for the amended C2 theorem at the default decay factor 0.99 and
n = 1. -/
theorem learnFromInteraction_average_nonincreasing_witness :
    (0 : ℝ) < 99 / 100 ∧ (99 : ℝ) / 100 ≤ 1 ∧
    averageOf (FieldLearner.getResonancePattern constKey (learnerDemoAfter 2) fieldDemo none) ≤
    averageOf (FieldLearner.getResonancePattern constKey (learnerDemoAfter 1) fieldDemo none) := by
  refine ⟨by norm_num, by norm_num, ?_⟩
  exact learnFromInteraction_average_nonincreasing constKey 512 (1 / 100) (9 / 10) (99 / 100)
    fieldDemo fieldDemo none 1 (by norm_num) (by norm_num) (le_refl 1)

/-- C2 counterexample: with the default decay factor 0.99, the second
resonance-1.0 call strictly LOWERS the average of the retrieved resonance
history (1 after one call, (0.99 + 1)/2 = 0.995 after two), so the average is
not monotonically non-decreasing in the number of calls. -/
theorem learnFromInteraction_average_decreases :
    averageOf (FieldLearner.getResonancePattern constKey (learnerDemoAfter 2) fieldDemo none) <
    averageOf (FieldLearner.getResonancePattern constKey (learnerDemoAfter 1) fieldDemo none) := by
  have h2 : FieldLearner.getResonancePattern constKey (learnerDemoAfter 2) fieldDemo none =
      decayedHistory (99 / 100) 2 := by
    rw [show learnerDemoAfter 2 =
      learnerAfter constKey (mkFieldLearner 512 (1 / 100) (9 / 10) (99 / 100))
        fieldDemo fieldDemo 1 none 2 from rfl]
    rw [pattern_after_iterations, histIterate_closed]
  have h1 : FieldLearner.getResonancePattern constKey (learnerDemoAfter 1) fieldDemo none =
      decayedHistory (99 / 100) 1 := by
    rw [show learnerDemoAfter 1 =
      learnerAfter constKey (mkFieldLearner 512 (1 / 100) (9 / 10) (99 / 100))
        fieldDemo fieldDemo 1 none 1 from rfl]
    rw [pattern_after_iterations, histIterate_closed]
  rw [h1, h2]
  have e2 : decayedHistory (99 / 100 : ℝ) 2 = [(99 / 100 : ℝ) ^ 1, (99 / 100 : ℝ) ^ 0] := by
    simp [decayedHistory, List.range_succ, triangle]
  have e1 : decayedHistory (99 / 100 : ℝ) 1 = [(99 / 100 : ℝ) ^ 0] := by
    simp [decayedHistory, List.range_succ, triangle]
  rw [e1, e2]
  norm_num [averageOf]
